import Mathlib

/-!
Verification of `lead_service.py` (`LeadService`): validators
`is_valid_email` / `is_valid_phone` (Python `re.match` on anchored patterns),
`determine_region`, and the orchestration routine `process_lead` together with
the traces of its collaborator calls (LeadStore, AgentDirectory, Notifier).
-/

namespace LeadService

/-! ## A small regex engine (Brzozowski derivatives)

The Python code decides its two validators with `re.match` on the anchored
patterns `^[^@]+@[^@]+\.[^@]+$` and `^\+?[0-9]{7,15}$`.  We embed exactly the
constructs those patterns use: character classes, concatenation, union,
Kleene star (for `+`), and bounded repetition.  Matching follows the standard
derivative construction.  In Python, `$` (without `re.MULTILINE`) matches at the
end of the string or just before a single trailing newline; `reMatchAnchored`
reproduces that. -/
inductive Regex where
  | fail : Regex
  | eps : Regex
  | cls : (Char → Bool) → Regex
  | cat : Regex → Regex → Regex
  | alt : Regex → Regex → Regex
  | star : Regex → Regex

def nullable : Regex → Bool
  | .fail => false
  | .eps => true
  | .cls _ => false
  | .cat r₁ r₂ => nullable r₁ && nullable r₂
  | .alt r₁ r₂ => nullable r₁ || nullable r₂
  | .star _ => true

def deriv : Regex → Char → Regex
  | .fail, _ => .fail
  | .eps, _ => .fail
  | .cls p, c => if p c then .eps else .fail
  | .cat r₁ r₂, c =>
      if nullable r₁ then .alt (.cat (deriv r₁ c) r₂) (deriv r₂ c)
      else .cat (deriv r₁ c) r₂
  | .alt r₁ r₂, c => .alt (deriv r₁ c) (deriv r₂ c)
  | .star r, c => .cat (deriv r c) (.star r)

def rmatch (r : Regex) : List Char → Bool
  | [] => nullable r
  | c :: s => rmatch (deriv r c) s

/-- `q+` for a character class `q`, i.e. `q q*`. -/
def plusCls (p : Char → Bool) : Regex := .cat (.cls p) (.star (.cls p))

/-- Exactly `n` repetitions of `r`. -/
def repExact (r : Regex) : Nat → Regex
  | 0 => .eps
  | n + 1 => .cat r (repExact r n)

/-- Between `lo` and `lo + span` repetitions of `r` (the `{m,n}` quantifier). -/
def repRange (r : Regex) (lo : Nat) : Nat → Regex
  | 0 => repExact r lo
  | span + 1 => .alt (repExact r lo) (repRange r (lo + 1) span)

/-- An optional occurrence of `r` (the `?` quantifier). -/
def opt (r : Regex) : Regex := .alt .eps r

/-- A single literal character. -/
def chr (c : Char) : Regex := .cls (fun x => x == c)

/-! ## The validators

`is_valid_email` and `is_valid_phone` translate the static methods of
`LeadService`: `if not value: return False` (an absent `.get` key is `none`
and the empty string is falsy), then `re.match(pattern, value) is not None`
on an anchored pattern. -/

/-- The character class `[^@]`. -/
def notAt : Char → Bool := fun c => !(c == '@')

/-- The body of the pattern `^[^@]+@[^@]+\.[^@]+$` (between the anchors). -/
def emailRegex : Regex :=
  .cat (plusCls notAt)
    (.cat (chr '@') (.cat (plusCls notAt) (.cat (chr '.') (plusCls notAt))))

/-- The body of the pattern `^\+?[0-9]{7,15}$` (between the anchors). -/
def phoneRegex : Regex :=
  .cat (opt (chr '+')) (repRange (.cls Char.isDigit) 7 8)

/-- Python `re.match` on a fully anchored pattern `^body$` without
`re.MULTILINE`: `$` matches at the end of the string or just before a single
trailing newline. -/
def reMatchAnchored (r : Regex) (s : List Char) : Bool :=
  rmatch r s ||
    (match s.getLast? with
     | some c => c == '\n' && rmatch r s.dropLast
     | none => false)

/-- `LeadService.is_valid_email`. -/
def is_valid_email (email : Option String) : Bool :=
  match email with
  | none => false
  | some e => if e.data.isEmpty then false else reMatchAnchored emailRegex e.data

/-- `LeadService.is_valid_phone`. -/
def is_valid_phone (phone : Option String) : Bool :=
  match phone with
  | none => false
  | some p => if p.data.isEmpty then false else reMatchAnchored phoneRegex p.data

/-- `LeadService.determine_region`: constant placeholder policy. -/
def determine_region : String → String := fun _ => "default-region"

/-! ## The shapes the spec ascribes to the validators

These two predicates are written from the words of the spec, to be compared with
the source-derived validators above. -/

/-- Spec shape for emails: at least one non-`@` character, then `@`, then at
least one non-`@` character, then a literal `.`, then at least one more
non-`@` character, with nothing else. -/
def EmailShapeSpec (l : List Char) : Prop :=
  ∃ a b c : List Char, a ≠ [] ∧ b ≠ [] ∧ c ≠ [] ∧
    (∀ x ∈ a, x ≠ '@') ∧ (∀ x ∈ b, x ≠ '@') ∧ (∀ x ∈ c, x ≠ '@') ∧
    l = a ++ '@' :: (b ++ '.' :: c)

/-- Spec shape for phones: an optional leading `+` followed by 7 to 15
decimal digits, with nothing else. -/
def PhoneShapeSpec (l : List Char) : Prop :=
  (7 ≤ l.length ∧ l.length ≤ 15 ∧ ∀ c ∈ l, Char.isDigit c = true) ∨
    ∃ d, l = '+' :: d ∧ 7 ≤ d.length ∧ d.length ≤ 15 ∧ ∀ c ∈ d, Char.isDigit c = true

/-- `PhoneShapeSpec` weakened by the Python `$`-before-trailing-newline rule:
the digits may additionally be followed by a single trailing newline. -/
def PhoneShapeSpecNl (l : List Char) : Prop :=
  PhoneShapeSpec l ∨ ∃ m, l = m ++ ['\n'] ∧ PhoneShapeSpec m

/-! ## The data model and the orchestration routine

`process_lead` mutates the submission dict and calls out to three
collaborators.  We embed the dict as a structure of optional fields (per the
data model of the spec: caller-supplied `email`/`phone`/`name`/`location`, plus
`region` and `assigned_agent` added during processing), the collaborators as
an oracle environment giving their return values, and the side effects as an
explicit list of collaborator calls in the order performed.  Python dict
truthiness for `.get` on an optional string field is `isTruthy`. -/
structure Submission where
  email : Option String := none
  phone : Option String := none
  name : Option String := none
  location : Option String := none
  region : Option String := none
  assigned_agent : Option Nat := none
deriving DecidableEq, Repr

/-- A persisted lead record; `process_lead` reads its `id` and `name`. -/
structure StoredLead where
  id : Nat
  name : String
deriving DecidableEq, Repr

structure SalesAgent where
  id : Nat
  name : String
deriving DecidableEq, Repr

/-- Oracle responses of the collaborators: what `find_by_email_or_phone`,
`get_best_available_agent` and `create` return when called. -/
structure Env where
  findResult : Option StoredLead
  agentResult : Option SalesAgent
  createResult : StoredLead
deriving DecidableEq, Repr

/-- One collaborator call, with its arguments. -/
inductive Call where
  | find_by_email_or_phone (email phone : Option String)
  | update (id : Nat) (data : Submission)
  | save_to_waiting_queue (data : Submission)
  | get_best_available_agent
  | create (data : Submission)
  | send (agentId : Nat) (message : String)
  | log_lead_process (leadId agentId : Nat) (message : String)
deriving DecidableEq, Repr

/-- Either a raised `ValidationException` (carrying its message dict) or the
returned result dict (`message`, and `assigned_to` when present). -/
inductive ProcessResult where
  | failure (messages : List (String × String))
  | success (message : String) (assigned_to : Option String)
deriving DecidableEq, Repr

/-- Python truthiness of `dict.get(key)` for an optional string field:
falsy when the key is absent or the string is empty. -/
def isTruthy : Option String → Bool
  | none => false
  | some s => !s.data.isEmpty

/-- Step 4 of `process_lead`:
`if lead_data.get(location): lead_data[region] = self.determine_region(...)`. -/
def regionalize (lead_data : Submission) : Submission :=
  if isTruthy lead_data.location then
    { lead_data with region := some (determine_region (lead_data.location.getD (""))) }
  else lead_data

/-- `LeadService.process_lead`, returning the raised-or-returned outcome and
the list of collaborator calls in order. -/
def process_lead (env : Env) (lead_data : Submission) : ProcessResult × List Call :=
  if !isTruthy lead_data.email && !isTruthy lead_data.phone then
    (.failure [("error", "Lead must have email or phone number")], [])
  else if !is_valid_email lead_data.email || !is_valid_phone lead_data.phone then
    (.failure [("error", "Invalid email or phone format")], [])
  else
    match env.findResult with
    | some lead =>
        (.success ("Lead updated") none,
         [.find_by_email_or_phone lead_data.email lead_data.phone,
          .update lead.id lead_data])
    | none =>
        let d₁ := regionalize lead_data
        match env.agentResult with
        | none =>
            (.success ("No available sales agents. Lead added to waiting queue.") none,
             [.find_by_email_or_phone lead_data.email lead_data.phone,
              .get_best_available_agent,
              .save_to_waiting_queue d₁])
        | some agent =>
            let d₂ := { d₁ with assigned_agent := some agent.id }
            let new_lead := env.createResult
            (.success ("New lead created and assigned") (some agent.name),
             [.find_by_email_or_phone lead_data.email lead_data.phone,
              .get_best_available_agent,
              .create d₂,
              .send agent.id ("New lead assigned: " ++ new_lead.name),
              .log_lead_process new_lead.id agent.id ("Lead assigned successfully")])

/-- The message dict of the contact-presence `ValidationException`. -/
def contactErr : List (String × String) := [("error", "Lead must have email or phone number")]

/-- The message dict of the format `ValidationException`. -/
def formatErr : List (String × String) := [("error", "Invalid email or phone format")]

/-- The submission payload a collaborator call carries, if any. -/
def callData : Call → Option Submission
  | .update _ d => some d
  | .save_to_waiting_queue d => some d
  | .create d => some d
  | _ => none

/-! ## Concrete inputs used by witnesses and counterexamples -/

/-- An environment with no duplicate and no available agent. -/
def envW : Env := ⟨none, none, ⟨2, "John"⟩⟩

/-- An environment in which a duplicate lead with id 1 is found. -/
def envC2 : Env := ⟨some ⟨1, "John"⟩, none, ⟨2, "John"⟩⟩

/-- An environment with no duplicate and an available agent. -/
def envAsgW : Env := ⟨none, some ⟨1, "Agent1"⟩, ⟨2, "John"⟩⟩

/-- A submission with a valid email and a valid phone. -/
def sVW : Submission :=
  { email := some ("test@example.com"), phone := some ("12345678"),
    name := some ("John") }

/-- A submission supplying only a (well-formed) email. -/
def s1W : Submission := { email := some ("test@example.com"), name := some ("John") }

/-- A submission with neither email nor phone. -/
def s3W : Submission := { name := some ("John") }

/-- A valid submission that also supplies a location. -/
def sC2 : Submission :=
  { email := some ("test@example.com"), phone := some ("12345678"),
    name := some ("John"), location := some ("US") }

/-- A valid submission whose location is supplied but empty. -/
def s10W : Submission :=
  { email := some ("test@example.com"), phone := some ("12345678"),
    name := some ("John"), location := some ("") }

/-! ## Theorems -/
@[simp] theorem rmatch_nil (r : Regex) : rmatch r [] = nullable r := rfl

@[simp] theorem rmatch_cons (r : Regex) (c : Char) (s : List Char) :
    rmatch r (c :: s) = rmatch (deriv r c) s := rfl

@[simp] theorem rmatch_fail (s : List Char) : rmatch .fail s = false := by
  induction s with
  | nil => rfl
  | cons c s ih => simpa [deriv] using ih

theorem rmatch_eps (s : List Char) : rmatch .eps s = true ↔ s = [] := by
  cases s with
  | nil => simp [nullable]
  | cons c s => simp [deriv]

theorem rmatch_cls (p : Char → Bool) (s : List Char) :
    rmatch (.cls p) s = true ↔ ∃ c, s = [c] ∧ p c = true := by
  cases s with
  | nil => simp [nullable]
  | cons c s =>
    simp only [rmatch_cons, deriv]
    by_cases hp : p c = true
    · rw [if_pos hp, rmatch_eps]
      constructor
      · intro hs; exact ⟨c, by simp [hs], hp⟩
      · rintro ⟨d, hd, _⟩
        simpa using congrArg List.tail hd
    · rw [if_neg hp]
      simp only [rmatch_fail, Bool.false_eq_true, false_iff]
      rintro ⟨d, hd, hpd⟩
      have hcd : c = d := by simpa using congrArg (fun l => l.headD c) hd
      exact hp (hcd ▸ hpd)

@[simp] theorem rmatch_alt (r₁ r₂ : Regex) (s : List Char) :
    rmatch (.alt r₁ r₂) s = (rmatch r₁ s || rmatch r₂ s) := by
  induction s generalizing r₁ r₂ with
  | nil => simp [nullable]
  | cons c s ih => simp [deriv, ih]

theorem rmatch_cat (r₁ r₂ : Regex) (s : List Char) :
    rmatch (.cat r₁ r₂) s = true ↔
      ∃ s₁ s₂, s = s₁ ++ s₂ ∧ rmatch r₁ s₁ = true ∧ rmatch r₂ s₂ = true := by
  induction s generalizing r₁ with
  | nil =>
    simp only [rmatch_nil, nullable, Bool.and_eq_true]
    constructor
    · rintro ⟨h₁, h₂⟩; exact ⟨[], [], rfl, h₁, h₂⟩
    · rintro ⟨s₁, s₂, hs, h₁, h₂⟩
      obtain ⟨rfl, rfl⟩ := List.append_eq_nil.mp hs.symm
      exact ⟨h₁, h₂⟩
  | cons c s ih =>
    simp only [rmatch_cons, deriv]
    by_cases hn : nullable r₁ = true
    · rw [if_pos hn]
      simp only [rmatch_alt, Bool.or_eq_true, ih]
      constructor
      · rintro (⟨s₁, s₂, rfl, h₁, h₂⟩ | h₂)
        · exact ⟨c :: s₁, s₂, rfl, h₁, h₂⟩
        · exact ⟨[], c :: s, rfl, hn, h₂⟩
      · rintro ⟨s₁, s₂, hs, h₁, h₂⟩
        cases s₁ with
        | nil =>
          right
          rw [← rmatch_cons]
          have hs₂ : s₂ = c :: s := by simpa using hs.symm
          exact hs₂ ▸ h₂
        | cons d s₁ =>
          left
          obtain ⟨rfl, rfl⟩ : d = c ∧ s = s₁ ++ s₂ := by
            constructor
            · simpa using (congrArg (fun l => l.headD c) hs).symm
            · simpa using congrArg List.tail hs
          exact ⟨s₁, s₂, rfl, h₁, h₂⟩
    · rw [if_neg hn]
      simp only [ih]
      constructor
      · rintro ⟨s₁, s₂, rfl, h₁, h₂⟩
        exact ⟨c :: s₁, s₂, rfl, h₁, h₂⟩
      · rintro ⟨s₁, s₂, hs, h₁, h₂⟩
        cases s₁ with
        | nil =>
          exact absurd (by simpa using h₁) hn
        | cons d s₁ =>
          obtain ⟨rfl, rfl⟩ : d = c ∧ s = s₁ ++ s₂ := by
            constructor
            · simpa using (congrArg (fun l => l.headD c) hs).symm
            · simpa using congrArg List.tail hs
          exact ⟨s₁, s₂, rfl, h₁, h₂⟩

theorem rmatch_star_cls (p : Char → Bool) (s : List Char) :
    rmatch (.star (.cls p)) s = true ↔ ∀ c ∈ s, p c = true := by
  induction s with
  | nil => simp [nullable]
  | cons c s ih =>
    simp only [rmatch_cons, deriv]
    by_cases hp : p c = true
    · rw [if_pos hp, rmatch_cat]
      constructor
      · rintro ⟨s₁, s₂, hs, h₁, h₂⟩
        obtain rfl := (rmatch_eps s₁).mp h₁
        simp only [List.nil_append] at hs
        subst hs
        intro d hd
        rcases List.mem_cons.mp hd with rfl | hd
        · exact hp
        · exact ih.mp h₂ d hd
      · intro h
        exact ⟨[], s, rfl, rfl, ih.mpr fun d hd => h d (List.mem_cons_of_mem _ hd)⟩
    · rw [if_neg hp]
      constructor
      · intro h
        obtain ⟨s₁, s₂, hs, h₁, h₂⟩ := (rmatch_cat _ _ _).mp h
        simp at h₁
      · intro h
        exact absurd (h c (List.mem_cons_self c s)) hp

theorem rmatch_plusCls (p : Char → Bool) (s : List Char) :
    rmatch (plusCls p) s = true ↔ s ≠ [] ∧ ∀ c ∈ s, p c = true := by
  rw [plusCls, rmatch_cat]
  constructor
  · rintro ⟨s₁, s₂, rfl, h₁, h₂⟩
    obtain ⟨c, rfl, hc⟩ := (rmatch_cls p s₁).mp h₁
    refine ⟨by simp, ?_⟩
    intro d hd
    rcases List.mem_cons.mp (by simpa using hd) with rfl | hd
    · exact hc
    · exact (rmatch_star_cls p s₂).mp h₂ d hd
  · rintro ⟨hne, hall⟩
    cases s with
    | nil => exact absurd rfl hne
    | cons c s =>
      refine ⟨[c], s, rfl, (rmatch_cls p [c]).mpr ⟨c, rfl, hall c (List.mem_cons_self c s)⟩, ?_⟩
      exact (rmatch_star_cls p s).mpr fun d hd => hall d (List.mem_cons_of_mem _ hd)

theorem rmatch_repExact_cls (p : Char → Bool) (n : Nat) (s : List Char) :
    rmatch (repExact (.cls p) n) s = true ↔ s.length = n ∧ ∀ c ∈ s, p c = true := by
  induction n generalizing s with
  | zero =>
    rw [repExact, rmatch_eps]
    constructor
    · rintro rfl; simp
    · rintro ⟨h, _⟩; exact List.length_eq_zero.mp h
  | succ n ih =>
    rw [repExact, rmatch_cat]
    constructor
    · rintro ⟨s₁, s₂, rfl, h₁, h₂⟩
      obtain ⟨c, rfl, hc⟩ := (rmatch_cls p s₁).mp h₁
      obtain ⟨hlen, hall⟩ := (ih s₂).mp h₂
      refine ⟨by simp [hlen], ?_⟩
      intro d hd
      rcases List.mem_cons.mp (by simpa using hd) with rfl | hd
      · exact hc
      · exact hall d hd
    · rintro ⟨hlen, hall⟩
      cases s with
      | nil => simp at hlen
      | cons c s =>
        refine ⟨[c], s, rfl, (rmatch_cls p [c]).mpr ⟨c, rfl, hall c (List.mem_cons_self c s)⟩, ?_⟩
        exact (ih s).mpr ⟨by simpa using hlen, fun d hd => hall d (List.mem_cons_of_mem _ hd)⟩

theorem rmatch_repRange_cls (p : Char → Bool) (lo span : Nat) (s : List Char) :
    rmatch (repRange (.cls p) lo span) s = true ↔
      lo ≤ s.length ∧ s.length ≤ lo + span ∧ ∀ c ∈ s, p c = true := by
  induction span generalizing lo with
  | zero =>
    rw [repRange, rmatch_repExact_cls]
    constructor
    · rintro ⟨rfl, h⟩; exact ⟨le_refl _, by simp, h⟩
    · rintro ⟨h₁, h₂, h⟩; exact ⟨le_antisymm (by simpa using h₂) h₁, h⟩
  | succ span ih =>
    rw [repRange, rmatch_alt]
    simp only [Bool.or_eq_true, rmatch_repExact_cls, ih]
    constructor
    · rintro (⟨rfl, h⟩ | ⟨h₁, h₂, h⟩)
      · exact ⟨le_refl _, by omega, h⟩
      · exact ⟨by omega, by omega, h⟩
    · rintro ⟨h₁, h₂, h⟩
      rcases Nat.eq_or_lt_of_le h₁ with heq | hlt
      · exact Or.inl ⟨heq.symm, h⟩
      · exact Or.inr ⟨hlt, by omega, h⟩

theorem rmatch_chr (c : Char) (s : List Char) :
    rmatch (chr c) s = true ↔ s = [c] := by
  rw [chr, rmatch_cls]
  constructor
  · rintro ⟨d, rfl, hd⟩
    simp_all
  · rintro rfl
    exact ⟨c, rfl, by simp⟩

theorem rmatch_opt (r : Regex) (s : List Char) :
    rmatch (opt r) s = true ↔ s = [] ∨ rmatch r s = true := by
  rw [opt, rmatch_alt]
  simp [rmatch_eps]

theorem notAt_iff (c : Char) : notAt c = true ↔ c ≠ '@' := by
  simp [notAt]

theorem emailRegex_iff (l : List Char) :
    rmatch emailRegex l = true ↔ EmailShapeSpec l := by
  rw [emailRegex, rmatch_cat]
  constructor
  · rintro ⟨a, s₂, rfl, ha, h₂⟩
    rw [rmatch_cat] at h₂
    obtain ⟨sAt, s₄, rfl, hAt, h₄⟩ := h₂
    rw [rmatch_chr] at hAt
    subst hAt
    rw [rmatch_cat] at h₄
    obtain ⟨b, s₆, rfl, hb, h₆⟩ := h₄
    rw [rmatch_cat] at h₆
    obtain ⟨sDot, c, rfl, hDot, hc⟩ := h₆
    rw [rmatch_chr] at hDot
    subst hDot
    obtain ⟨hane, haall⟩ := (rmatch_plusCls _ _).mp ha
    obtain ⟨hbne, hball⟩ := (rmatch_plusCls _ _).mp hb
    obtain ⟨hcne, hcall⟩ := (rmatch_plusCls _ _).mp hc
    exact ⟨a, b, c, hane, hbne, hcne,
      fun x hx => (notAt_iff x).mp (haall x hx),
      fun x hx => (notAt_iff x).mp (hball x hx),
      fun x hx => (notAt_iff x).mp (hcall x hx), by simp⟩
  · rintro ⟨a, b, c, hane, hbne, hcne, haall, hball, hcall, rfl⟩
    refine ⟨a, '@' :: (b ++ '.' :: c), rfl,
      (rmatch_plusCls _ _).mpr ⟨hane, fun x hx => (notAt_iff x).mpr (haall x hx)⟩, ?_⟩
    rw [rmatch_cat]
    refine ⟨['@'], b ++ '.' :: c, rfl, (rmatch_chr _ _).mpr rfl, ?_⟩
    rw [rmatch_cat]
    refine ⟨b, '.' :: c, rfl,
      (rmatch_plusCls _ _).mpr ⟨hbne, fun x hx => (notAt_iff x).mpr (hball x hx)⟩, ?_⟩
    rw [rmatch_cat]
    exact ⟨['.'], c, rfl, (rmatch_chr _ _).mpr rfl,
      (rmatch_plusCls _ _).mpr ⟨hcne, fun x hx => (notAt_iff x).mpr (hcall x hx)⟩⟩

theorem emailShapeSpec_snoc_newline {l : List Char} (h : EmailShapeSpec l) :
    EmailShapeSpec (l ++ ['\n']) := by
  obtain ⟨a, b, c, hane, hbne, hcne, ha, hb, hc, rfl⟩ := h
  refine ⟨a, b, c ++ ['\n'], hane, hbne, by simp, ha, hb, ?_, by simp⟩
  intro x hx
  rcases List.mem_append.mp hx with hx | hx
  · exact hc x hx
  · simp only [List.mem_singleton] at hx
    subst hx
    decide

theorem emailShapeSpec_ne_nil {l : List Char} (h : EmailShapeSpec l) : l ≠ [] := by
  obtain ⟨a, b, c, hane, _, _, _, _, _, rfl⟩ := h
  simp

theorem getLast?_decomp {l : List Char} {c : Char} (h : l.getLast? = some c) :
    l = l.dropLast ++ [c] := by
  cases l with
  | nil => simp at h
  | cons d m =>
    have hne : d :: m ≠ [] := by simp
    rw [List.getLast?_eq_getLast _ hne] at h
    have hc : (d :: m).getLast hne = c := by simpa using h
    rw [← hc]
    exact (List.dropLast_append_getLast hne).symm

theorem reMatchAnchored_email (l : List Char) :
    reMatchAnchored emailRegex l = true ↔ EmailShapeSpec l := by
  rw [reMatchAnchored]
  simp only [Bool.or_eq_true]
  constructor
  · rintro (h | h)
    · exact (emailRegex_iff l).mp h
    · cases hl : l.getLast? with
      | none => rw [hl] at h; cases h
      | some c =>
        rw [hl] at h
        simp only [Bool.and_eq_true, beq_iff_eq] at h
        obtain ⟨rfl, hm⟩ := h
        rw [getLast?_decomp hl]
        exact emailShapeSpec_snoc_newline ((emailRegex_iff _).mp hm)
  · intro h
    exact Or.inl ((emailRegex_iff l).mpr h)

theorem phoneRegex_iff (l : List Char) :
    rmatch phoneRegex l = true ↔ PhoneShapeSpec l := by
  rw [phoneRegex, rmatch_cat]
  constructor
  · rintro ⟨s₁, s₂, rfl, h₁, h₂⟩
    obtain ⟨hlo, hhi, hdig⟩ := (rmatch_repRange_cls _ _ _ _).mp h₂
    rcases (rmatch_opt _ _).mp h₁ with rfl | hp
    · exact Or.inl ⟨by simpa using hlo, by simpa using hhi, by simpa using hdig⟩
    · obtain rfl := (rmatch_chr _ _).mp hp
      exact Or.inr ⟨s₂, rfl, hlo, by omega, hdig⟩
  · rintro (⟨hlo, hhi, hdig⟩ | ⟨d, rfl, hlo, hhi, hdig⟩)
    · exact ⟨[], l, rfl, (rmatch_opt _ _).mpr (Or.inl rfl),
        (rmatch_repRange_cls _ _ _ _).mpr ⟨hlo, by omega, hdig⟩⟩
    · exact ⟨['+'], d, rfl, (rmatch_opt _ _).mpr (Or.inr ((rmatch_chr _ _).mpr rfl)),
        (rmatch_repRange_cls _ _ _ _).mpr ⟨hlo, by omega, hdig⟩⟩

theorem reMatchAnchored_phone (l : List Char) :
    reMatchAnchored phoneRegex l = true ↔ PhoneShapeSpecNl l := by
  rw [reMatchAnchored]
  simp only [Bool.or_eq_true]
  constructor
  · rintro (h | h)
    · exact Or.inl ((phoneRegex_iff l).mp h)
    · cases hl : l.getLast? with
      | none => rw [hl] at h; cases h
      | some c =>
        rw [hl] at h
        simp only [Bool.and_eq_true, beq_iff_eq] at h
        obtain ⟨rfl, hm⟩ := h
        exact Or.inr ⟨l.dropLast, getLast?_decomp hl, (phoneRegex_iff _).mp hm⟩
  · rintro (h | ⟨m, rfl, hm⟩)
    · exact Or.inl ((phoneRegex_iff l).mpr h)
    · right
      rw [List.getLast?_concat, List.dropLast_concat]
      simpa using (phoneRegex_iff m).mpr hm

theorem phoneShapeSpec_ne_nil {l : List Char} (h : PhoneShapeSpec l) : l ≠ [] := by
  rcases h with ⟨hlo, _, _⟩ | ⟨d, rfl, _, _, _⟩
  · intro hnil; subst hnil; simp at hlo
  · simp

theorem phoneShapeSpecNl_ne_nil {l : List Char} (h : PhoneShapeSpecNl l) : l ≠ [] := by
  rcases h with h | ⟨m, rfl, _⟩
  · exact phoneShapeSpec_ne_nil h
  · simp

theorem is_valid_email_iff (email : Option String) :
    is_valid_email email = true ↔
      ∃ s : String, email = some s ∧ EmailShapeSpec s.data := by
  cases email with
  | none => simp [is_valid_email]
  | some e =>
    rw [is_valid_email]
    by_cases he : e.data.isEmpty
    · rw [if_pos he]
      simp only [Bool.false_eq_true, false_iff]
      rintro ⟨s, hs, hshape⟩
      obtain rfl := Option.some.inj hs
      exact emailShapeSpec_ne_nil hshape (List.isEmpty_iff.mp he)
    · rw [if_neg he, reMatchAnchored_email]
      constructor
      · intro h; exact ⟨e, rfl, h⟩
      · rintro ⟨s, hs, h⟩
        obtain rfl := Option.some.inj hs
        exact h

theorem is_valid_phone_iff (phone : Option String) :
    is_valid_phone phone = true ↔
      ∃ s : String, phone = some s ∧ PhoneShapeSpecNl s.data := by
  cases phone with
  | none => simp [is_valid_phone]
  | some p =>
    rw [is_valid_phone]
    by_cases hp : p.data.isEmpty
    · rw [if_pos hp]
      simp only [Bool.false_eq_true, false_iff]
      rintro ⟨s, hs, hshape⟩
      obtain rfl := Option.some.inj hs
      exact phoneShapeSpecNl_ne_nil hshape (List.isEmpty_iff.mp hp)
    · rw [if_neg hp, reMatchAnchored_phone]
      constructor
      · intro h; exact ⟨p, rfl, h⟩
      · rintro ⟨s, hs, h⟩
        obtain rfl := Option.some.inj hs
        exact h

/-! ## Branch-evaluation lemmas for `process_lead` -/
theorem truthy_of_valid_email {x : Option String} (h : is_valid_email x = true) :
    isTruthy x = true := by
  cases x with
  | none => simp [is_valid_email] at h
  | some e =>
    rw [is_valid_email] at h
    by_cases he : e.data.isEmpty
    · rw [if_pos he] at h; cases h
    · have he' : e.data.isEmpty = false := by simpa using he
      simp [isTruthy, he']

theorem truthy_of_valid_phone {x : Option String} (h : is_valid_phone x = true) :
    isTruthy x = true := by
  cases x with
  | none => simp [is_valid_phone] at h
  | some p =>
    rw [is_valid_phone] at h
    by_cases hp : p.data.isEmpty
    · rw [if_pos hp] at h; cases h
    · have hp' : p.data.isEmpty = false := by simpa using hp
      simp [isTruthy, hp']

theorem isSome_of_truthy {x : Option String} (h : isTruthy x = true) :
    x.isSome = true := by
  cases x with
  | none => simp [isTruthy] at h
  | some e => rfl

theorem valid_email_false_of_not_truthy {x : Option String} (h : isTruthy x = false) :
    is_valid_email x = false := by
  cases hv : is_valid_email x
  · rfl
  · have ht := truthy_of_valid_email hv
    rw [h] at ht
    cases ht

theorem valid_phone_false_of_not_truthy {x : Option String} (h : isTruthy x = false) :
    is_valid_phone x = false := by
  cases hv : is_valid_phone x
  · rfl
  · have ht := truthy_of_valid_phone hv
    rw [h] at ht
    cases ht

/-- The contact-presence check fails: `process_lead` raises the contact
`ValidationException` and performs no collaborator call. -/
theorem process_lead_no_contact (env : Env) (s : Submission)
    (he : isTruthy s.email = false) (hp : isTruthy s.phone = false) :
    process_lead env s = (.failure contactErr, []) := by
  rw [process_lead, if_pos (by simp [he, hp])]
  rfl

/-- The contact-presence check passes but the format check fails:
`process_lead` raises the format `ValidationException` and performs no
collaborator call. -/
theorem process_lead_invalid (env : Env) (s : Submission)
    (hcontact : (!isTruthy s.email && !isTruthy s.phone) = false)
    (hbad : (is_valid_email s.email && is_valid_phone s.phone) = false) :
    process_lead env s = (.failure formatErr, []) := by
  have h2 : (!is_valid_email s.email || !is_valid_phone s.phone) = true := by
    cases hve : is_valid_email s.email <;> cases hvp : is_valid_phone s.phone <;>
      simp_all
  rw [process_lead, if_neg (by simp [hcontact]), if_pos h2]
  rfl

/-- Both validators pass and a duplicate is found: the update path. -/
theorem process_lead_update_eq (env : Env) (s : Submission) (lead : StoredLead)
    (hv : is_valid_email s.email = true) (hp : is_valid_phone s.phone = true)
    (hf : env.findResult = some lead) :
    process_lead env s =
      (.success ("Lead updated") none,
       [.find_by_email_or_phone s.email s.phone, .update lead.id s]) := by
  have ht := truthy_of_valid_email hv
  rw [process_lead, if_neg (by simp [ht]), if_neg (by simp [hv, hp]), hf]

/-- Both validators pass, no duplicate, no agent available: the queue path. -/
theorem process_lead_queue_eq (env : Env) (s : Submission)
    (hv : is_valid_email s.email = true) (hp : is_valid_phone s.phone = true)
    (hf : env.findResult = none) (ha : env.agentResult = none) :
    process_lead env s =
      (.success ("No available sales agents. Lead added to waiting queue.") none,
       [.find_by_email_or_phone s.email s.phone, .get_best_available_agent,
        .save_to_waiting_queue (regionalize s)]) := by
  have ht := truthy_of_valid_email hv
  rw [process_lead, if_neg (by simp [ht]), if_neg (by simp [hv, hp]), hf, ha]

/-- Both validators pass, no duplicate, an agent is available: the
assignment path. -/
theorem process_lead_assign_eq (env : Env) (s : Submission) (agent : SalesAgent)
    (hv : is_valid_email s.email = true) (hp : is_valid_phone s.phone = true)
    (hf : env.findResult = none) (ha : env.agentResult = some agent) :
    process_lead env s =
      (.success ("New lead created and assigned") (some agent.name),
       [.find_by_email_or_phone s.email s.phone,
        .get_best_available_agent,
        .create { regionalize s with assigned_agent := some agent.id },
        .send agent.id ("New lead assigned: " ++ env.createResult.name),
        .log_lead_process env.createResult.id agent.id ("Lead assigned successfully")]) := by
  have ht := truthy_of_valid_email hv
  rw [process_lead, if_neg (by simp [ht]), if_neg (by simp [hv, hp]), hf, ha]

/-- A non-failure outcome forces both validators to have accepted. -/
theorem valid_of_not_failure (env : Env) (s : Submission)
    (h : ∀ m, (process_lead env s).1 ≠ .failure m) :
    is_valid_email s.email = true ∧ is_valid_phone s.phone = true := by
  by_cases h1 : (!isTruthy s.email && !isTruthy s.phone) = true
  · obtain ⟨he, hp⟩ : isTruthy s.email = false ∧ isTruthy s.phone = false := by
      simpa using h1
    exact absurd (by rw [process_lead_no_contact env s he hp]) (h contactErr)
  · by_cases hbad : (is_valid_email s.email && is_valid_phone s.phone) = true
    · simpa using hbad
    · have hc : (!isTruthy s.email && !isTruthy s.phone) = false := by
        simpa using h1
      have hb : (is_valid_email s.email && is_valid_phone s.phone) = false := by
        simpa using hbad
      exact absurd (by rw [process_lead_invalid env s hc hb]) (h formatErr)

/-- Both validators passing rules out every failure outcome. -/
theorem not_failure_of_valid (env : Env) (s : Submission)
    (hv : is_valid_email s.email = true) (hp : is_valid_phone s.phone = true)
    (m : List (String × String)) :
    (process_lead env s).1 ≠ .failure m := by
  rcases hf : env.findResult with _ | lead
  · rcases ha : env.agentResult with _ | agent
    · rw [process_lead_queue_eq env s hv hp hf ha]
      simp
    · rw [process_lead_assign_eq env s agent hv hp hf ha]
      simp
  · rw [process_lead_update_eq env s lead hv hp hf]
    simp

theorem regionalize_email (s : Submission) : (regionalize s).email = s.email := by
  rw [regionalize]; split <;> rfl

theorem regionalize_phone (s : Submission) : (regionalize s).phone = s.phone := by
  rw [regionalize]; split <;> rfl

theorem regionalize_assigned_agent (s : Submission) :
    (regionalize s).assigned_agent = s.assigned_agent := by
  rw [regionalize]; split <;> rfl

theorem regionalize_region_truthy (s : Submission) (h : isTruthy s.location = true) :
    (regionalize s).region = some ("default-region") := by
  rw [regionalize, if_pos h]
  rfl

theorem regionalize_region_falsy (s : Submission) (h : isTruthy s.location = false) :
    regionalize s = s := by
  rw [regionalize, if_neg (by simp [h])]

/-- Every submission payload handed to a collaborator is the original
submission, the regionalized submission, or the regionalized submission with
an agent identifier attached. -/
theorem callData_shape (env : Env) (s : Submission) :
    ∀ c ∈ (process_lead env s).2, ∀ d, callData c = some d →
      d = s ∨ d = regionalize s ∨
      ∃ agent, env.agentResult = some agent ∧
        d = { regionalize s with assigned_agent := some agent.id } := by
  by_cases h1 : (!isTruthy s.email && !isTruthy s.phone) = true
  · obtain ⟨he, hp⟩ : isTruthy s.email = false ∧ isTruthy s.phone = false := by
      simpa using h1
    rw [process_lead_no_contact env s he hp]
    intro c hc
    simp at hc
  · by_cases hbad : (is_valid_email s.email && is_valid_phone s.phone) = true
    · obtain ⟨hv, hp⟩ := Bool.and_eq_true_iff.mp hbad
      rcases hf : env.findResult with _ | lead
      · rcases ha : env.agentResult with _ | agent
        · rw [process_lead_queue_eq env s hv hp hf ha]
          intro c hc d hd
          rcases (by simpa using hc : c = _ ∨ c = _ ∨ c = _) with rfl | rfl | rfl
          · simp [callData] at hd
          · simp [callData] at hd
          · rw [callData] at hd
            exact Or.inr (Or.inl (Option.some.inj hd).symm)
        · rw [process_lead_assign_eq env s agent hv hp hf ha]
          intro c hc d hd
          rcases (by simpa using hc : c = _ ∨ c = _ ∨ c = _ ∨ c = _ ∨ c = _) with
            rfl | rfl | rfl | rfl | rfl
          · simp [callData] at hd
          · simp [callData] at hd
          · rw [callData] at hd
            exact Or.inr (Or.inr ⟨agent, rfl, (Option.some.inj hd).symm⟩)
          · simp [callData] at hd
          · simp [callData] at hd
      · rw [process_lead_update_eq env s lead hv hp hf]
        intro c hc d hd
        rcases (by simpa using hc : c = _ ∨ c = _) with rfl | rfl
        · simp [callData] at hd
        · rw [callData] at hd
          exact Or.inl (Option.some.inj hd).symm
    · have hc1 : (!isTruthy s.email && !isTruthy s.phone) = false := by simpa using h1
      have hb : (is_valid_email s.email && is_valid_phone s.phone) = false := by
        simpa using hbad
      rw [process_lead_invalid env s hc1 hb]
      intro c hc
      simp at hc

/-- The payload of a `save_to_waiting_queue` or `create` call is, exactly,
the regionalized submission (for `create`, with the agent id attached). -/
theorem save_or_create_payload (env : Env) (s : Submission) (d : Submission)
    (hd : Call.save_to_waiting_queue d ∈ (process_lead env s).2 ∨
          Call.create d ∈ (process_lead env s).2) :
    d = regionalize s ∨
      ∃ agent, env.agentResult = some agent ∧
        d = { regionalize s with assigned_agent := some agent.id } := by
  by_cases h1 : (!isTruthy s.email && !isTruthy s.phone) = true
  · obtain ⟨he, hp⟩ : isTruthy s.email = false ∧ isTruthy s.phone = false := by
      simpa using h1
    rw [process_lead_no_contact env s he hp] at hd
    simp at hd
  · by_cases hbad : (is_valid_email s.email && is_valid_phone s.phone) = true
    · obtain ⟨hv, hp⟩ := Bool.and_eq_true_iff.mp hbad
      rcases hf : env.findResult with _ | lead
      · rcases ha : env.agentResult with _ | agent
        · rw [process_lead_queue_eq env s hv hp hf ha] at hd
          rcases hd with hd | hd
          · left
            have : Call.save_to_waiting_queue d = Call.save_to_waiting_queue (regionalize s) := by
              simpa using hd
            exact Call.save_to_waiting_queue.inj this
          · simp at hd
        · rw [process_lead_assign_eq env s agent hv hp hf ha] at hd
          rcases hd with hd | hd
          · simp at hd
          · right
            refine ⟨agent, rfl, ?_⟩
            have : Call.create d =
                Call.create { regionalize s with assigned_agent := some agent.id } := by
              simpa using hd
            exact Call.create.inj this
      · rw [process_lead_update_eq env s lead hv hp hf] at hd
        simp at hd
    · have hc1 : (!isTruthy s.email && !isTruthy s.phone) = false := by simpa using h1
      have hb : (is_valid_email s.email && is_valid_phone s.phone) = false := by
        simpa using hbad
      rw [process_lead_invalid env s hc1 hb] at hd
      simp at hd

/-! ## The claims -/

/-- C1: for every submission that passes the contact-presence check,
`process_lead` raises the `ValidationException` carrying
`{error: "Invalid email or phone format"}` exactly when not both
`is_valid_email` and `is_valid_phone` accept; in particular a submission
supplying exactly one of email/phone, even a well-formed one, raises this
failure. -/
theorem c1_format_check (env : Env) (s : Submission)
    (h : isTruthy s.email = true ∨ isTruthy s.phone = true) :
    ((process_lead env s).1 = .failure formatErr ↔
      ¬(is_valid_email s.email = true ∧ is_valid_phone s.phone = true)) ∧
    (isTruthy s.email ≠ isTruthy s.phone →
      (process_lead env s).1 = .failure formatErr) := by
  have hcontact : (!isTruthy s.email && !isTruthy s.phone) = false := by
    rcases h with h | h <;> simp [h]
  constructor
  · constructor
    · intro hres hand
      exact not_failure_of_valid env s hand.1 hand.2 formatErr hres
    · intro hnand
      have hbad : (is_valid_email s.email && is_valid_phone s.phone) = false := by
        cases hve : is_valid_email s.email <;> cases hvp : is_valid_phone s.phone <;>
          simp_all
      rw [process_lead_invalid env s hcontact hbad]
  · intro hxor
    have hbad : (is_valid_email s.email && is_valid_phone s.phone) = false := by
      cases hte : isTruthy s.email <;> cases htp : isTruthy s.phone
      · rw [hte, htp] at hxor; exact absurd rfl hxor
      · simp [valid_email_false_of_not_truthy hte]
      · simp [valid_phone_false_of_not_truthy htp]
      · rw [hte, htp] at hxor; exact absurd rfl hxor
    rw [process_lead_invalid env s hcontact hbad]

/-- C1 witness: a submission supplying only a well-formed email raises the
format failure. -/
theorem c1_format_check_witness : (process_lead envW s1W).1 = .failure formatErr :=
  (c1_format_check envW s1W (Or.inl (by decide))).2 (by decide)

/-- C2 counterexample: deduplication runs before regionalization, so a
duplicate submission whose `location` is supplied is passed to
`LeadStore.update` with no `region` field, refuting the claimed iff for the
`update` storage call. -/
theorem c2_region_counterexample :
    Call.update 1 sC2 ∈ (process_lead envC2 sC2).2 ∧
    sC2.location.isSome = true ∧ sC2.region = none := by
  decide

/-- C2 (amended): for every submission arriving without a `region` field,
every payload that `process_lead` passes to `save_to_waiting_queue` or
`create` has `region` present iff `location` was supplied non-empty, and
any present `region` equals `"default-region"` regardless of the location
value. -/
theorem c2_region_invariant (env : Env) (s : Submission) (hr : s.region = none)
    (d : Submission)
    (hd : Call.save_to_waiting_queue d ∈ (process_lead env s).2 ∨
          Call.create d ∈ (process_lead env s).2) :
    (d.region.isSome = true ↔ isTruthy s.location = true) ∧
    ∀ r, d.region = some r → r = "default-region" := by
  have hdr : d.region = (regionalize s).region := by
    rcases save_or_create_payload env s d hd with rfl | ⟨agent, ha, rfl⟩
    · rfl
    · rfl
  by_cases hl : isTruthy s.location = true
  · rw [hdr, regionalize_region_truthy s hl]
    refine ⟨by simp [hl], ?_⟩
    intro r hrr
    exact (Option.some.inj hrr).symm
  · have hl' : isTruthy s.location = false := by simpa using hl
    rw [hdr, regionalize_region_falsy s hl', hr]
    refine ⟨by simp [hl'], ?_⟩
    intro r hrr
    simp at hrr

/-- C2 witness: the queued payload of a located submission carries a
region. -/
theorem c2_region_invariant_witness :
    (regionalize sC2).region.isSome = true ↔ isTruthy sC2.location = true :=
  (c2_region_invariant envW sC2 rfl (regionalize sC2) (Or.inl (by decide))).1

/-- C3: a submission with both contact fields empty or absent raises the
contact-presence `ValidationException` with an empty call trace, and every
validation failure leaves the call trace empty (no side effect before any
failure). -/
theorem c3_contact_check (env : Env) (s : Submission) :
    ((isTruthy s.email = false ∧ isTruthy s.phone = false) →
      process_lead env s = (.failure contactErr, [])) ∧
    ∀ m, (process_lead env s).1 = .failure m → (process_lead env s).2 = [] := by
  constructor
  · rintro ⟨he, hp⟩
    exact process_lead_no_contact env s he hp
  · intro m hm
    by_cases h1 : (!isTruthy s.email && !isTruthy s.phone) = true
    · obtain ⟨he, hp⟩ : isTruthy s.email = false ∧ isTruthy s.phone = false := by
        simpa using h1
      rw [process_lead_no_contact env s he hp]
    · by_cases hbad : (is_valid_email s.email && is_valid_phone s.phone) = true
      · obtain ⟨hv, hp⟩ := Bool.and_eq_true_iff.mp hbad
        exact absurd hm (not_failure_of_valid env s hv hp m)
      · rw [process_lead_invalid env s (by simpa using h1) (by simpa using hbad)]

/-- C3 witness: a submission with no contact data fails with the contact
message and an empty trace. -/
theorem c3_contact_check_witness :
    process_lead envW s3W = (.failure contactErr, []) ∧ (process_lead envW s3W).2 = [] :=
  ⟨(c3_contact_check envW s3W).1 ⟨rfl, rfl⟩,
   (c3_contact_check envW s3W).2 contactErr (by decide)⟩

/-- C4: for a valid, non-duplicate submission with an available agent,
`process_lead` attaches the agent id to the (regionalized) submission,
calls `create` with it, then `send` with the agent id and the message
naming the created lead, then `log_lead_process` with the new lead id, the
agent id and the fixed success message, in that order and once each, and
returns the created-and-assigned result carrying the agent name. -/
theorem c4_assign_path (env : Env) (s : Submission) (agent : SalesAgent)
    (hv : is_valid_email s.email = true) (hp : is_valid_phone s.phone = true)
    (hf : env.findResult = none) (ha : env.agentResult = some agent) :
    process_lead env s =
      (.success ("New lead created and assigned") (some agent.name),
       [.find_by_email_or_phone s.email s.phone,
        .get_best_available_agent,
        .create { regionalize s with assigned_agent := some agent.id },
        .send agent.id ("New lead assigned: " ++ env.createResult.name),
        .log_lead_process env.createResult.id agent.id ("Lead assigned successfully")]) :=
  process_lead_assign_eq env s agent hv hp hf ha

/-- C4 witness: the assignment path on concrete inputs. -/
theorem c4_assign_path_witness :
    process_lead envAsgW sVW =
      (.success ("New lead created and assigned") (some ("Agent1")),
       [.find_by_email_or_phone sVW.email sVW.phone,
        .get_best_available_agent,
        .create { regionalize sVW with assigned_agent := some 1 },
        .send 1 ("New lead assigned: John"),
        .log_lead_process 2 1 ("Lead assigned successfully")]) :=
  c4_assign_path envAsgW sVW ⟨1, "Agent1"⟩ (by decide) (by decide) rfl rfl

/-- C5: for a valid submission with a duplicate on record, `process_lead`
performs exactly the lookup and one `update` with the found id and the
original submission (no region computed), returns the updated message, and
never touches the agent directory, queue, notifier or audit log. -/
theorem c5_update_path (env : Env) (s : Submission) (lead : StoredLead)
    (hv : is_valid_email s.email = true) (hp : is_valid_phone s.phone = true)
    (hf : env.findResult = some lead) :
    process_lead env s =
      (.success ("Lead updated") none,
       [.find_by_email_or_phone s.email s.phone, .update lead.id s]) :=
  process_lead_update_eq env s lead hv hp hf

/-- C5 witness: the update path on concrete inputs. -/
theorem c5_update_path_witness :
    process_lead envC2 sVW =
      (.success ("Lead updated") none,
       [.find_by_email_or_phone sVW.email sVW.phone, .update 1 sVW]) :=
  c5_update_path envC2 sVW ⟨1, "John"⟩ (by decide) (by decide) rfl

/-- C6: for a valid, non-duplicate submission with no available agent,
`process_lead` performs exactly the lookup, the agent query, and one
`save_to_waiting_queue` with the regionalized submission, returns the
queued message, and the queued payload carries no `assigned_agent`. -/
theorem c6_queue_path (env : Env) (s : Submission)
    (hv : is_valid_email s.email = true) (hp : is_valid_phone s.phone = true)
    (hf : env.findResult = none) (ha : env.agentResult = none)
    (hag : s.assigned_agent = none) :
    (process_lead env s =
      (.success ("No available sales agents. Lead added to waiting queue.") none,
       [.find_by_email_or_phone s.email s.phone, .get_best_available_agent,
        .save_to_waiting_queue (regionalize s)])) ∧
    (regionalize s).assigned_agent = none := by
  refine ⟨process_lead_queue_eq env s hv hp hf ha, ?_⟩
  rw [regionalize_assigned_agent, hag]

/-- C6 witness: the queue path on concrete inputs. -/
theorem c6_queue_path_witness :
    (process_lead envW sVW =
      (.success ("No available sales agents. Lead added to waiting queue.") none,
       [.find_by_email_or_phone sVW.email sVW.phone, .get_best_available_agent,
        .save_to_waiting_queue (regionalize sVW)])) ∧
    (regionalize sVW).assigned_agent = none :=
  c6_queue_path envW sVW (by decide) (by decide) rfl rfl rfl

/-- C7: `is_valid_email` is false on absent and empty values and otherwise
accepts exactly the shape of `EmailShapeSpec` (the trailing-newline latitude
of the Python `$` is absorbed, since a newline is itself a non-`@`
character); the examples of the spec evaluate as stated. -/
theorem c7_email_validator (e : Option String) :
    (is_valid_email e = true ↔ ∃ s : String, e = some s ∧ EmailShapeSpec s.data) ∧
    is_valid_email (some ("test@example.com")) = true ∧
    is_valid_email (some ("invalid")) = false ∧
    is_valid_email none = false :=
  ⟨is_valid_email_iff e, by decide, by decide, rfl⟩

/-- C8 counterexample: in Python, `$` also matches just before one trailing
newline, so `is_valid_phone` accepts a value that is not an optional `+`
followed by 7 to 15 digits and nothing else. -/
theorem c8_phone_counterexample :
    is_valid_phone (some ("1234567\n")) = true ∧ ¬ PhoneShapeSpec ("1234567\n").data := by
  constructor
  · decide
  · intro h
    have hdata : ("1234567\n").data = ['1', '2', '3', '4', '5', '6', '7', '\n'] := by
      decide
    rcases h with ⟨_, _, hall⟩ | ⟨d, hd, _, _, _⟩
    · rw [hdata] at hall
      exact absurd (hall '\n' (by decide)) (by decide)
    · rw [hdata] at hd
      have h1 : '1' = '+' := by simpa using congrArg (fun l => l.headD ' ') hd
      exact absurd h1 (by decide)

/-- C8 (amended): `is_valid_phone` is false on absent and empty values and
otherwise accepts exactly an optional leading `+` followed by 7 to 15
decimal digits, optionally followed by a single trailing newline (Python
`$` semantics); the examples of the spec evaluate as stated. -/
theorem c8_phone_validator (p : Option String) :
    (is_valid_phone p = true ↔ ∃ s : String, p = some s ∧ PhoneShapeSpecNl s.data) ∧
    is_valid_phone (some ("+1234567890")) = true ∧
    is_valid_phone (some ("123")) = false ∧
    is_valid_phone none = false :=
  ⟨is_valid_phone_iff p, by decide, by decide, rfl⟩

/-- C9: whenever `process_lead` does not raise, both contact fields are
present and pass their validators, and every submission payload handed to a
collaborator still carries those same valid fields. -/
theorem c9_valid_at_calls (env : Env) (s : Submission)
    (h : ∀ m, (process_lead env s).1 ≠ .failure m) :
    is_valid_email s.email = true ∧ is_valid_phone s.phone = true ∧
    s.email.isSome = true ∧ s.phone.isSome = true ∧
    ∀ c ∈ (process_lead env s).2, ∀ d, callData c = some d →
      d.email = s.email ∧ d.phone = s.phone ∧
      is_valid_email d.email = true ∧ is_valid_phone d.phone = true := by
  obtain ⟨hv, hp⟩ := valid_of_not_failure env s h
  refine ⟨hv, hp, isSome_of_truthy (truthy_of_valid_email hv),
    isSome_of_truthy (truthy_of_valid_phone hp), ?_⟩
  intro c hc d hd
  have hde : d.email = s.email ∧ d.phone = s.phone := by
    rcases callData_shape env s c hc d hd with rfl | rfl | ⟨agent, ha, rfl⟩
    · exact ⟨rfl, rfl⟩
    · exact ⟨regionalize_email s, regionalize_phone s⟩
    · exact ⟨regionalize_email s, regionalize_phone s⟩
  refine ⟨hde.1, hde.2, ?_, ?_⟩
  · rw [hde.1]; exact hv
  · rw [hde.2]; exact hp

/-- C9 witness: applying the invariant to a concrete non-failing run. -/
theorem c9_valid_at_calls_witness : is_valid_email sVW.email = true :=
  (c9_valid_at_calls envW sVW (fun m hm => by
    rw [show (process_lead envW sVW).1 =
        ProcessResult.success ("No available sales agents. Lead added to waiting queue.") none
      from by decide] at hm
    exact ProcessResult.noConfusion hm)).1

/-- C10: when `location` is supplied but empty, the regionalization step is
skipped (it keys on truthiness, not presence), so no payload handed to a
collaborator ever carries a `region` field. -/
theorem c10_empty_location (env : Env) (s : Submission)
    (hl : s.location = some (""))
    (hr : s.region = none) :
    ∀ c ∈ (process_lead env s).2, ∀ d, callData c = some d → d.region = none := by
  have hl' : isTruthy s.location = false := by rw [hl]; rfl
  have hreg : regionalize s = s := regionalize_region_falsy s hl'
  intro c hc d hd
  rcases callData_shape env s c hc d hd with rfl | rfl | ⟨agent, ha, rfl⟩
  · exact hr
  · rw [hreg]; exact hr
  · have hproj : ({ regionalize s with assigned_agent := some agent.id } : Submission).region
        = (regionalize s).region := rfl
    rw [hproj, hreg]
    exact hr

/-- C10 witness: the empty-location submission is queued without a
region. -/
theorem c10_empty_location_witness : (regionalize s10W).region = none :=
  c10_empty_location envW s10W rfl rfl
    (Call.save_to_waiting_queue (regionalize s10W)) (by decide) (regionalize s10W) rfl

end LeadService
